import Mathlib

/-!
Verification of the `mysqldb` package: a shallow embedding of `db.go`
(connection facade, migration-script statement splitter, migration runner,
lifecycle open/close) together with theorems settling the specification
claims.  Scripts, SQL text and file names are modelled as `List Char`; the
effectful parts (driver calls, filesystem, ledger table) are modelled by
explicit state passing over abstract outcome functions.
-/

/-! ## Go string primitives used by `runMigrations` -/

/-- The character class removed by Go's `strings.TrimSpace`
(`unicode.IsSpace`, Latin-1 range; space characters above U+00A0 do not
occur in SQL migration scripts and are not modelled). -/
def goIsSpace (c : Char) : Bool :=
  c = ' ' || c = '\t' || c = '\n' || c = Char.ofNat 11 || c = Char.ofNat 12 ||
    c = '\r' || c = Char.ofNat 0x85 || c = Char.ofNat 0xA0

/-- Go `strings.TrimSpace`: drop leading and trailing whitespace. -/
def goTrim (s : List Char) : List Char :=
  ((s.dropWhile goIsSpace).reverse.dropWhile goIsSpace).reverse

/-- Go `strings.Index`: index of the first occurrence of `pat` as a
contiguous substring, `none` when absent (Go returns `-1`). -/
def idxOf? (pat : List Char) : List Char → Option Nat
  | [] => if pat.isPrefixOf ([] : List Char) then some 0 else none
  | c :: t => if pat.isPrefixOf (c :: t) then some 0 else (idxOf? pat t).map (· + 1)

/-- Go `strings.Replace(s, pat, "", 1)`: remove the first occurrence of
`pat` from `s`. -/
def replaceFirst (pat s : List Char) : List Char :=
  match idxOf? pat s with
  | none => s
  | some i => s.take i ++ s.drop (i + pat.length)

/-! ## The statement splitter of `runMigrations` (db.go lines 296-342) -/

/-- The literal directive token `"delimiter "` searched for by the splitter. -/
def directiveToken : List Char := "delimiter ".data

/-- Outcome of one iteration of the splitting loop: the loop errors
(`unexpected end of migration`), breaks out (optionally after executing a
final statement), or continues with a possibly new delimiter and the
advanced, trimmed remainder (optionally after executing a statement). -/
inductive StepResult where
  | errored : StepResult
  | halt : Option (List Char) → StepResult
  | next : Option (List Char) → List Char → List Char → StepResult
deriving DecidableEq, Repr

/-- The delimiter-occurrence branch (db.go lines 305-324): the statement is
the text up to the delimiter occurrence at `di`, including the terminator
exactly when the current delimiter is the default `";"`; the scan then
advances by `di + 1` characters and trims the remainder. -/
def delimStep (delim sql : List Char) (di : Nat) : StepResult :=
  let stmt := if delim = [';'] then sql.take (di + 1) else sql.take di
  if sql.length ≤ di then .halt (some stmt)
  else .next (some stmt) delim (goTrim (sql.drop (di + 1)))

/-- The delimiter-change branch (db.go lines 326-341): find the first
line-break anywhere in the remainder; if none, break out of the loop;
otherwise the new delimiter is the remainder's prefix up to and including
that line-break with the first `"delimiter "` occurrence removed, all
line-breaks removed, and whitespace trimmed; the scan advances past the
line-break and trims. -/
def dirStep (_delim sql : List Char) : StepResult :=
  match idxOf? ['\n'] sql with
  | none => .halt none
  | some nl =>
    let newDelim := goTrim (((replaceFirst directiveToken (sql.take (nl + 1)))).filter
      (fun c => c ≠ '\n'))
    if sql.length ≤ nl then .halt none
    else .next none newDelim (goTrim (sql.drop (nl + 1)))

/-- One iteration of the splitting loop body (db.go lines 298-341):
locate the next delimiter occurrence and the next `"delimiter "` directive
occurrence; error when neither exists; take the delimiter branch when no
directive exists or the delimiter occurrence is strictly earlier, and the
directive branch otherwise (ties go to the directive). -/
def stepFn (delim sql : List Char) : StepResult :=
  match idxOf? delim sql, idxOf? directiveToken sql with
  | none, none => .errored
  | some di, none => delimStep delim sql di
  | some di, some ci => if di < ci then delimStep delim sql di else dirStep delim sql
  | none, some _ => dirStep delim sql

/-- Fuel-indexed splitting loop (`for sql != ""`, db.go line 297), returning
the statements executed in order and whether the loop ended in the
`unexpected end of migration` error.  The fuel only serves structural
recursion; `sql.length + 1` is always sufficient because every continuing
step strictly shrinks the remainder. -/
def splitLoopFuel : Nat → List Char → List Char → List (List Char) × Bool
  | 0, _, _ => ([], false)
  | fuel + 1, delim, sql =>
    if sql = [] then ([], false)
    else
      match stepFn delim sql with
      | .errored => ([], true)
      | .halt e => (e.toList, false)
      | .next e d2 s2 =>
        let r := splitLoopFuel fuel d2 s2
        (e.toList ++ r.1, r.2)

/-- The splitting loop from a given delimiter and remainder. -/
def splitLoop (delim sql : List Char) : List (List Char) × Bool :=
  splitLoopFuel (sql.length + 1) delim sql

/-- Splitting one migration script (db.go lines 294-342): trim the file
contents, start with the default delimiter `";"`, and run the loop. -/
def splitScript (script : List Char) : List (List Char) × Bool :=
  splitLoop [';'] (goTrim script)

/-- Reachability of the splitter's failure state (db.go lines 301-303):
from current delimiter `delim` and remainder `sql`, the loop eventually
reaches a non-empty remainder containing neither an occurrence of the
current delimiter nor the directive token `delimiter `. -/
inductive ReachesBad : List Char → List Char → Prop where
  | found {delim sql : List Char} (hne : sql ≠ []) (hd : idxOf? delim sql = none)
      (hc : idxOf? directiveToken sql = none) : ReachesBad delim sql
  | step {delim sql : List Char} {e : Option (List Char)} {d2 s2 : List Char}
      (hne : sql ≠ []) (hstep : stepFn delim sql = .next e d2 s2)
      (htail : ReachesBad d2 s2) : ReachesBad delim sql

/-! ## The connection facade (db.go lines 39-49 and 64-74) -/

/-- A Go `interface{}` value as handed to the database driver: scalar
values, or a `[]interface{}` slice appearing as a single element. -/
inductive GoVal where
  | int : Int → GoVal
  | str : List Char → GoVal
  | slice : List GoVal → GoVal

/-- `DB.Exec` (db.go lines 39-41): the body `db.db.Exec(query, args)` passes
the whole variadic slice `args` as one element of the underlying variadic
list.  The value is the (query, argument list) pair the underlying `*sql.DB`
receives. -/
def DB.Exec (query : List Char) (args : List GoVal) : List Char × List GoVal :=
  (query, [GoVal.slice args])

/-- `DB.Query` (db.go lines 43-45): body `db.db.Query(query, args)`. -/
def DB.Query (query : List Char) (args : List GoVal) : List Char × List GoVal :=
  (query, [GoVal.slice args])

/-- `DB.QueryRow` (db.go lines 47-49): body `db.db.QueryRow(query, args)`. -/
def DB.QueryRow (query : List Char) (args : List GoVal) : List Char × List GoVal :=
  (query, [GoVal.slice args])

/-- `Tx.Exec` (db.go lines 64-66): body `tx.tx.Exec(query, args)`. -/
def Tx.Exec (query : List Char) (args : List GoVal) : List Char × List GoVal :=
  (query, [GoVal.slice args])

/-- `Tx.Query` (db.go lines 68-70): body `tx.tx.Query(query, args)`. -/
def Tx.Query (query : List Char) (args : List GoVal) : List Char × List GoVal :=
  (query, [GoVal.slice args])

/-- `Tx.QueryRow` (db.go lines 72-74): body `tx.tx.QueryRow(query, args)`. -/
def Tx.QueryRow (query : List Char) (args : List GoVal) : List Char × List GoVal :=
  (query, [GoVal.slice args])

/-! ## Lifecycle: NewDB (db.go lines 142-187) and Close (lines 192-209) -/

/-- Abstract outcomes of the external collaborators touched by `NewDB`:
whether the DSN parses and whether each administrative call, the open, the
ping and the migration run succeed. -/
structure NewDBEnv where
  parseOk : Bool
  dropExistingOk : Bool
  createOk : Bool
  openOk : Bool
  pingOk : Bool
  migrationsOk : Bool
deriving DecidableEq, Repr

/-- The configuration accumulated by the `Option` values
(db.go lines 105-139). -/
structure DBOptions where
  autoCreate : Bool
  dropExisting : Bool
  dropOnClose : Bool
  migrationsDir : List Char
deriving DecidableEq, Repr

/-- Observable trace of one `NewDB` call: whether the main handle was
opened, whether it was closed again before returning, whether migration
work ran, and whether a DB respectively an error was returned. -/
structure NewDBTrace where
  opened : Bool
  closedHandle : Bool
  ranMigrations : Bool
  returnedDB : Bool
  returnedErr : Bool
deriving DecidableEq, Repr

/-- `NewDB` (db.go lines 142-187): parse the DSN, run the configured
drop-existing and auto-create administrative calls, open the handle, ping
it (closing the handle on failure), and run migrations when a directory is
configured (closing the handle on failure). -/
def newDBModel (env : NewDBEnv) (opts : DBOptions) : NewDBTrace :=
  if !env.parseOk then ⟨false, false, false, false, true⟩
  else if opts.dropExisting && !env.dropExistingOk then ⟨false, false, false, false, true⟩
  else if opts.autoCreate && !env.createOk then ⟨false, false, false, false, true⟩
  else if !env.openOk then ⟨false, false, false, false, true⟩
  else if !env.pingOk then ⟨true, true, false, false, true⟩
  else if !opts.migrationsDir.isEmpty && !env.migrationsOk then ⟨true, true, true, false, true⟩
  else ⟨true, false, !opts.migrationsDir.isEmpty, true, false⟩

/-- `DB.Close` (db.go lines 192-209), over the abstract outcomes of the
main close, the DSN re-parse and the administrative drop: the value is
(error returned?, drop issued?). -/
def closeModel (dropOnClose closeFails parseFails dropFails : Bool) : Bool × Bool :=
  if closeFails then (true, false)
  else if !dropOnClose then (false, false)
  else if parseFails then (true, false)
  else (dropFails, true)

/-! ## Migration runner (db.go lines 249-351) -/

/-- One entry of the `fs.ReadDir` listing; the name is the entry base
name as a character list. -/
structure DirEntry where
  name : List Char
  isDir : Bool
deriving DecidableEq, Repr

/-- Auxiliary scan for `path.Ext`: walk the reversed name accumulating
characters until the final dot, stopping empty at a slash or at the start. -/
def pathExtRev (acc : List Char) : List Char → List Char
  | [] => []
  | c :: rest =>
    if c = '/' then []
    else if c = '.' then c :: acc
    else pathExtRev (c :: acc) rest

/-- Go `path.Ext`: the suffix beginning at the final dot in the final
slash-separated element, empty when there is no dot. -/
def pathExt (p : List Char) : List Char := pathExtRev [] p.reverse

/-- Go `strings.ToLower` (ASCII file names). -/
def goToLower (s : List Char) : List Char := s.map Char.toLower

/-- The filter of db.go lines 268-274: keep entries that are not
directories and whose extension lowercases to `".sql"`. -/
def keepEntry (e : DirEntry) : Bool :=
  !e.isDir && (goToLower (pathExt e.name) == ".sql".data)

/-- db.go lines 267-276: filter the directory entries to migration file
names and sort them ascending (`sort.Strings`, byte-lexical order). -/
def selectMigrations (entries : List DirEntry) : List (List Char) :=
  List.insertionSort (· ≤ ·) ((entries.filter keepEntry).map DirEntry.name)

/-- Abstract environment of one `runMigrations` call: the directory
listing, the file contents by name (`none` = read error), and whether the
server accepts each executed statement. -/
structure MigrationEnv where
  entries : List DirEntry
  readFile : List Char → Option (List Char)
  execOk : List Char → Bool

/-- Observable state threaded through the runner: the `__Migrations` ledger
names (in insertion order), every statement executed so far, and every file
read so far. -/
structure RunState where
  ledger : List (List Char)
  execed : List (List Char)
  reads : List (List Char)
deriving DecidableEq, Repr

/-- Execute split statements in order against the server, stopping at the
first failure: the statements attempted, and whether one failed. -/
def execStatements (execOk : List Char → Bool) : List (List Char) → List (List Char) × Bool
  | [] => ([], false)
  | s :: rest =>
    if execOk s then
      let r := execStatements execOk rest
      (s :: r.1, r.2)
    else ([s], true)

/-- Processing of one migration file (db.go lines 278-347): skip when the
ledger already has the name; otherwise read, split and execute, and append
the ledger record only when every step succeeded.  The second component
reports whether the run aborts here. -/
def runFile (env : MigrationEnv) (st : RunState) (name : List Char) : RunState × Bool :=
  if name ∈ st.ledger then (st, false)
  else
    match env.readFile name with
    | none => ({ st with reads := st.reads ++ [name] }, true)
    | some contents =>
      let split := splitScript contents
      let ex := execStatements env.execOk split.1
      let st1 : RunState :=
        { st with execed := st.execed ++ ex.1, reads := st.reads ++ [name] }
      if ex.2 || split.2 then (st1, true)
      else ({ st1 with ledger := st1.ledger ++ [name] }, false)

/-- db.go lines 278-348: process the sorted migration files in order,
aborting the whole run at the first failure. -/
def runFiles (env : MigrationEnv) (st : RunState) : List (List Char) → RunState × Bool
  | [] => (st, false)
  | n :: rest =>
    let r := runFile env st n
    if r.2 then (r.1, true) else runFiles env r.1 rest

/-- One whole `runMigrations` call from an initial ledger. -/
def runMigrationsModel (env : MigrationEnv) (initialLedger : List (List Char)) :
    RunState × Bool :=
  runFiles env ⟨initialLedger, [], []⟩ (selectMigrations env.entries)

/-! ## Splitter lemmas -/

theorem goTrim_length_le (s : List Char) : (goTrim s).length ≤ s.length := by
  unfold goTrim
  rw [List.length_reverse]
  refine le_trans (List.dropWhile_sublist _).length_le ?_
  rw [List.length_reverse]
  exact (List.dropWhile_sublist _).length_le

theorem delimStep_next {delim sql : List Char} {di : Nat} {e : Option (List Char)}
    {d2 s2 : List Char} (h : delimStep delim sql di = .next e d2 s2) :
    e = some (if delim = [';'] then sql.take (di + 1) else sql.take di) ∧
    d2 = delim ∧ s2 = goTrim (sql.drop (di + 1)) ∧ di < sql.length := by
  unfold delimStep at h
  by_cases hle : sql.length ≤ di
  · simp [hle] at h
  · simp only [if_neg hle, StepResult.next.injEq] at h
    exact ⟨h.1.symm, h.2.1.symm, h.2.2.symm, Nat.lt_of_not_le hle⟩

theorem dirStep_next {delim sql : List Char} {e : Option (List Char)} {d2 s2 : List Char}
    (h : dirStep delim sql = .next e d2 s2) :
    ∃ nl, idxOf? ['\n'] sql = some nl ∧ nl < sql.length ∧ e = none ∧
      d2 = goTrim ((replaceFirst directiveToken (sql.take (nl + 1))).filter
        (fun c => c ≠ '\n')) ∧
      s2 = goTrim (sql.drop (nl + 1)) := by
  unfold dirStep at h
  cases hnl : idxOf? ['\n'] sql with
  | none => rw [hnl] at h; simp at h
  | some nl =>
    rw [hnl] at h
    by_cases hle : sql.length ≤ nl
    · simp [hle] at h
    · simp only [if_neg hle, StepResult.next.injEq] at h
      exact ⟨nl, rfl, Nat.lt_of_not_le hle, h.1.symm, h.2.1.symm, h.2.2.symm⟩

theorem delimStep_ne_errored (delim sql : List Char) (di : Nat) :
    delimStep delim sql di ≠ .errored := by
  unfold delimStep
  by_cases h : sql.length ≤ di <;> simp [h]

theorem dirStep_ne_errored (delim sql : List Char) : dirStep delim sql ≠ .errored := by
  unfold dirStep
  cases hnl : idxOf? ['\n'] sql with
  | none => simp
  | some nl => by_cases h : sql.length ≤ nl <;> simp [h]

theorem stepFn_cases (delim sql : List Char) :
    (idxOf? delim sql = none ∧ idxOf? directiveToken sql = none ∧
      stepFn delim sql = .errored) ∨
    (∃ di, idxOf? delim sql = some di ∧ stepFn delim sql = delimStep delim sql di) ∨
    (stepFn delim sql = dirStep delim sql ∧ ∃ ci, idxOf? directiveToken sql = some ci) := by
  unfold stepFn
  cases hd : idxOf? delim sql with
  | none =>
    cases hc : idxOf? directiveToken sql with
    | none => exact Or.inl ⟨rfl, rfl, rfl⟩
    | some ci => exact Or.inr (Or.inr ⟨rfl, ci, rfl⟩)
  | some di =>
    cases hc : idxOf? directiveToken sql with
    | none => exact Or.inr (Or.inl ⟨di, rfl, rfl⟩)
    | some ci =>
      by_cases hlt : di < ci
      · exact Or.inr (Or.inl ⟨di, rfl, if_pos hlt⟩)
      · exact Or.inr (Or.inr ⟨if_neg hlt, ci, rfl⟩)

theorem stepFn_errored_iff {delim sql : List Char} :
    stepFn delim sql = .errored ↔
      idxOf? delim sql = none ∧ idxOf? directiveToken sql = none := by
  constructor
  · intro h
    rcases stepFn_cases delim sql with ⟨hd, hc, -⟩ | ⟨di, hd, heq⟩ | ⟨heq, ci, hc⟩
    · exact ⟨hd, hc⟩
    · rw [heq] at h; exact absurd h (delimStep_ne_errored _ _ _)
    · rw [heq] at h; exact absurd h (dirStep_ne_errored _ _)
  · rintro ⟨hd, hc⟩
    rcases stepFn_cases delim sql with ⟨-, -, h⟩ | ⟨di, hdi, -⟩ | ⟨-, ci, hci⟩
    · exact h
    · rw [hd] at hdi; exact absurd hdi (by simp)
    · rw [hc] at hci; exact absurd hci (by simp)

theorem stepFn_next_length {delim sql : List Char} {e : Option (List Char)}
    {d2 s2 : List Char} (h : stepFn delim sql = .next e d2 s2) :
    s2.length < sql.length := by
  have fromDelim : ∀ di, delimStep delim sql di = .next e d2 s2 →
      s2.length < sql.length := by
    intro di hdel
    obtain ⟨-, -, hs2, hdi⟩ := delimStep_next hdel
    calc s2.length ≤ (sql.drop (di + 1)).length := hs2 ▸ goTrim_length_le _
    _ = sql.length - (di + 1) := by rw [List.length_drop]
    _ < sql.length := by omega
  have fromDir : dirStep delim sql = .next e d2 s2 → s2.length < sql.length := by
    intro hdir
    obtain ⟨nl, -, hnl, -, -, hs2⟩ := dirStep_next hdir
    calc s2.length ≤ (sql.drop (nl + 1)).length := hs2 ▸ goTrim_length_le _
    _ = sql.length - (nl + 1) := by rw [List.length_drop]
    _ < sql.length := by omega
  rcases stepFn_cases delim sql with ⟨-, -, heq⟩ | ⟨di, -, heq⟩ | ⟨heq, -⟩ <;>
    rw [heq] at h
  · exact absurd h (by simp)
  · exact fromDelim _ h
  · exact fromDir h

theorem splitLoopFuel_congr : ∀ (f1 f2 : Nat) (delim sql : List Char),
    sql.length < f1 → sql.length < f2 →
    splitLoopFuel f1 delim sql = splitLoopFuel f2 delim sql := by
  intro f1
  induction f1 with
  | zero => intro f2 delim sql h1 h2; omega
  | succ f ih =>
    intro f2 delim sql h1 h2
    cases f2 with
    | zero => omega
    | succ g =>
      by_cases hsql : sql = []
      · simp [splitLoopFuel, hsql]
      · have hlen : 0 < sql.length := List.length_pos.mpr hsql
        simp only [splitLoopFuel, if_neg hsql]
        cases hstep : stepFn delim sql with
        | errored => rfl
        | halt e => rfl
        | next e d2 s2 =>
          have hs2 := stepFn_next_length hstep
          show (e.toList ++ (splitLoopFuel f d2 s2).1, (splitLoopFuel f d2 s2).2) =
            (e.toList ++ (splitLoopFuel g d2 s2).1, (splitLoopFuel g d2 s2).2)
          rw [ih g d2 s2 (by omega) (by omega)]

theorem splitLoop_eq (delim sql : List Char) :
    splitLoop delim sql =
      if sql = [] then ([], false)
      else
        match stepFn delim sql with
        | .errored => ([], true)
        | .halt e => (e.toList, false)
        | .next e d2 s2 => (e.toList ++ (splitLoop d2 s2).1, (splitLoop d2 s2).2) := by
  by_cases hsql : sql = []
  · simp [splitLoop, splitLoopFuel, hsql]
  · rw [if_neg hsql]
    cases hstep : stepFn delim sql with
    | errored =>
      show splitLoopFuel (sql.length + 1) delim sql = ([], true)
      unfold splitLoopFuel
      rw [if_neg hsql, hstep]
    | halt e =>
      show splitLoopFuel (sql.length + 1) delim sql = (e.toList, false)
      unfold splitLoopFuel
      rw [if_neg hsql, hstep]
    | next e d2 s2 =>
      have hs2 := stepFn_next_length hstep
      show splitLoopFuel (sql.length + 1) delim sql =
        (e.toList ++ (splitLoop d2 s2).1, (splitLoop d2 s2).2)
      unfold splitLoopFuel
      rw [if_neg hsql, hstep]
      show (e.toList ++ (splitLoopFuel sql.length d2 s2).1,
          (splitLoopFuel sql.length d2 s2).2) =
        (e.toList ++ (splitLoop d2 s2).1, (splitLoop d2 s2).2)
      rw [splitLoopFuel_congr sql.length (s2.length + 1) d2 s2 hs2 (Nat.lt_succ_self _)]
      rfl

/-! ## Claim theorems -/

/-- Claim C1 (code bug): evaluated at the query `SELECT ?, ?` with the two
positional parameters 1 and 2, every facade method — `DB.Exec`, `DB.Query`,
`DB.QueryRow` and the `Tx` variants — hands the underlying connection a
single argument, the `[]interface{}` slice holding both values, instead of
forwarding the two values as their own positional arguments. -/
theorem c1_facade_forwards_slice :
    (DB.Exec "SELECT ?, ?".data [GoVal.int 1, GoVal.int 2]).2 =
        [GoVal.slice [GoVal.int 1, GoVal.int 2]] ∧
    (DB.Query "SELECT ?, ?".data [GoVal.int 1, GoVal.int 2]).2 =
        [GoVal.slice [GoVal.int 1, GoVal.int 2]] ∧
    (DB.QueryRow "SELECT ?, ?".data [GoVal.int 1, GoVal.int 2]).2 =
        [GoVal.slice [GoVal.int 1, GoVal.int 2]] ∧
    (Tx.Exec "SELECT ?, ?".data [GoVal.int 1, GoVal.int 2]).2 =
        [GoVal.slice [GoVal.int 1, GoVal.int 2]] ∧
    (Tx.Query "SELECT ?, ?".data [GoVal.int 1, GoVal.int 2]).2 =
        [GoVal.slice [GoVal.int 1, GoVal.int 2]] ∧
    (Tx.QueryRow "SELECT ?, ?".data [GoVal.int 1, GoVal.int 2]).2 =
        [GoVal.slice [GoVal.int 1, GoVal.int 2]] ∧
    [GoVal.slice [GoVal.int 1, GoVal.int 2]] ≠ [GoVal.int 1, GoVal.int 2] := by
  refine ⟨rfl, rfl, rfl, rfl, rfl, rfl, fun h => ?_⟩
  have := congrArg List.length h
  simp at this

/-- Claim C3: splitting the script
`delimiter $$\n...body...$$\ndelimiter ;\nSELECT 1;` produces exactly two
statements in this order — the body with the trailing `$$` stripped, then
`SELECT 1;` with its semicolon retained — and no error. -/
theorem c3_delimiter_redefinition_script :
    splitScript "delimiter $$\n...body...$$\ndelimiter ;\nSELECT 1;".data =
      (["...body...".data, "SELECT 1;".data], false) := by decide

/-- Claim C9: for a DB configured through `NewDB` (whose DSN therefore
re-parses at close time, the third argument being `false`), `Close` issues
the administrative drop exactly when drop-on-close is set and the main
close succeeded; a failed main close returns the error and skips the drop;
without drop-on-close no drop is ever issued. -/
theorem c9_close_drop (dropOnClose closeFails dropFails : Bool) :
    ((closeModel dropOnClose closeFails false dropFails).2 = true ↔
      closeFails = false ∧ dropOnClose = true) ∧
    (closeFails = true →
      (closeModel dropOnClose closeFails false dropFails).1 = true ∧
      (closeModel dropOnClose closeFails false dropFails).2 = false) ∧
    (dropOnClose = false →
      (closeModel dropOnClose closeFails false dropFails).2 = false) := by
  cases dropOnClose <;> cases closeFails <;> cases dropFails <;> decide

/-- Witness for `c9_close_drop`: with drop-on-close set, a successful main
close issues the drop and a failing one skips it. -/
theorem c9_close_drop_witness :
    (closeModel true false false false).2 = true ∧
    (closeModel true true false false).2 = false :=
  ⟨(c9_close_drop true false false).1.mpr ⟨rfl, rfl⟩,
    ((c9_close_drop true true false).2.1 rfl).2⟩

/-- Claim C10: `NewDB` never returns both a DB and an error; whenever the
handle was opened and an error is returned (ping or migration failure),
the handle is closed before returning; and with an empty migrations
directory no migration work happens at all. -/
theorem c10_newdb_cleanup (env : NewDBEnv) (opts : DBOptions) :
    ((newDBModel env opts).returnedDB = true →
      (newDBModel env opts).returnedErr = false) ∧
    ((newDBModel env opts).returnedErr = true →
      (newDBModel env opts).returnedDB = false) ∧
    ((newDBModel env opts).opened = true → (newDBModel env opts).returnedErr = true →
      (newDBModel env opts).closedHandle = true) ∧
    (opts.migrationsDir = [] → (newDBModel env opts).ranMigrations = false) := by
  obtain ⟨p, dr, c, o, pg, m⟩ := env
  obtain ⟨ac, de, dc, md⟩ := opts
  by_cases hmd : md.isEmpty <;>
    cases p <;> cases dr <;> cases c <;> cases o <;> cases pg <;> cases m <;>
      cases ac <;> cases de <;>
        simp_all [newDBModel]

/-- Witness for `c10_newdb_cleanup`: a ping failure on an opened handle
with no migrations directory configured closes the handle, returns no DB,
and runs no migrations. -/
theorem c10_newdb_cleanup_witness :
    (newDBModel ⟨true, true, true, true, false, true⟩ ⟨false, false, false, []⟩).closedHandle
        = true ∧
    (newDBModel ⟨true, true, true, true, false, true⟩ ⟨false, false, false, []⟩).returnedDB
        = false ∧
    (newDBModel ⟨true, true, true, true, false, true⟩ ⟨false, false, false, []⟩).ranMigrations
        = false :=
  ⟨(c10_newdb_cleanup ⟨true, true, true, true, false, true⟩ ⟨false, false, false, []⟩).2.2.1
      rfl rfl,
    (c10_newdb_cleanup ⟨true, true, true, true, false, true⟩ ⟨false, false, false, []⟩).2.1 rfl,
    (c10_newdb_cleanup ⟨true, true, true, true, false, true⟩ ⟨false, false, false, []⟩).2.2.2 rfl⟩

/-! ## Whitespace and prefix lemmas for the splitter claims -/

theorem dropWhile_eq_self_of_length {α : Type} (p : α → Bool) (l : List α)
    (h : (l.dropWhile p).length = l.length) : l.dropWhile p = l := by
  cases l with
  | nil => rfl
  | cons c t =>
    rw [List.dropWhile_cons] at h ⊢
    by_cases hc : p c = true
    · rw [if_pos hc] at h ⊢
      have := (List.dropWhile_sublist (l := t) p).length_le
      simp only [List.length_cons] at h
      exfalso
      omega
    · rw [if_neg hc]

theorem goTrim_eq_self_dropWhile {s : List Char} (h : goTrim s = s) :
    s.dropWhile goIsSpace = s := by
  have h1 : (goTrim s).length = s.length := by rw [h]
  have h2 : (goTrim s).length ≤ (s.dropWhile goIsSpace).length := by
    unfold goTrim
    rw [List.length_reverse]
    calc ((s.dropWhile goIsSpace).reverse.dropWhile goIsSpace).length
        ≤ (s.dropWhile goIsSpace).reverse.length := (List.dropWhile_sublist _).length_le
    _ = (s.dropWhile goIsSpace).length := List.length_reverse _
  have h3 : (s.dropWhile goIsSpace).length ≤ s.length :=
    (List.dropWhile_sublist _).length_le
  exact dropWhile_eq_self_of_length _ _ (by omega)

theorem dropWhile_take_eq_self {α : Type} (p : α → Bool) (l : List α) (n : Nat)
    (h : l.dropWhile p = l) : (l.take n).dropWhile p = l.take n := by
  cases l with
  | nil => simp
  | cons c t =>
    have hc : ¬ p c = true := by
      intro hcc
      rw [List.dropWhile_cons, if_pos hcc] at h
      have := (List.dropWhile_sublist (l := t) p).length_le
      have hl := congrArg List.length h
      simp only [List.length_cons] at hl
      omega
    cases n with
    | zero => simp
    | succ m => rw [List.take_succ_cons, List.dropWhile_cons, if_neg hc]

theorem idxOf?_isPrefixOf : ∀ (pat s : List Char) (i : Nat), idxOf? pat s = some i →
    pat.isPrefixOf (s.drop i) = true := by
  intro pat s
  induction s with
  | nil =>
    intro i h
    unfold idxOf? at h
    by_cases hp : pat.isPrefixOf ([] : List Char) = true
    · rw [if_pos hp] at h
      have h0 : i = 0 := (Option.some.inj h).symm
      subst h0
      simpa using hp
    · rw [if_neg hp] at h
      exact absurd h (by simp)
  | cons c t ih =>
    intro i h
    unfold idxOf? at h
    by_cases hp : pat.isPrefixOf (c :: t) = true
    · rw [if_pos hp] at h
      have h0 : i = 0 := (Option.some.inj h).symm
      subst h0
      simpa using hp
    · rw [if_neg hp] at h
      cases hj : idxOf? pat t with
      | none => rw [hj] at h; exact absurd h (by simp)
      | some j =>
        rw [hj] at h
        simp only [Option.map_some'] at h
        have h1 : j + 1 = i := Option.some.inj h
        subst h1
        rw [List.drop_succ_cons]
        exact ih j hj

theorem exists_append_of_isPrefixOf {l₁ l₂ : List Char} (h : l₁.isPrefixOf l₂ = true) :
    ∃ t, l₂ = l₁ ++ t := by
  obtain ⟨t, ht⟩ := List.isPrefixOf_iff_prefix.mp h
  exact ⟨t, ht.symm⟩

theorem dirStep_eq_of_none {delim sql : List Char} (h : idxOf? ['\n'] sql = none) :
    dirStep delim sql = .halt none := by
  unfold dirStep
  rw [h]

theorem dirStep_eq_of_some {delim sql : List Char} {nl : Nat}
    (h : idxOf? ['\n'] sql = some nl) (hlt : nl < sql.length) :
    dirStep delim sql =
      .next none (goTrim ((replaceFirst directiveToken (sql.take (nl + 1))).filter
        (fun c => c ≠ '\n'))) (goTrim (sql.drop (nl + 1))) := by
  unfold dirStep
  rw [h]
  show (if sql.length ≤ nl then StepResult.halt none
      else StepResult.next none
        (goTrim ((replaceFirst directiveToken (sql.take (nl + 1))).filter
          (fun c => c ≠ '\n')))
        (goTrim (sql.drop (nl + 1)))) = _
  rw [if_neg (by omega)]

/-- Claim C2 (counterexample): splitting the script
`delimiter $$\nSELECT 1 $$\ndelimiter ;\nX;` emits as its first statement
`SELECT 1 ` — the text up to the custom delimiter with its trailing space
retained — so the emitted statement is not trimmed of trailing whitespace,
contrary to the claim. -/
theorem c2_counterexample :
    splitScript "delimiter $$\nSELECT 1 $$\ndelimiter ;\nX;".data =
      (["SELECT 1 ".data, "X;".data], false) ∧
    goTrim "SELECT 1 ".data ≠ "SELECT 1 ".data := by decide

/-- Claim C2 (amended): each statement the splitter emits is the text up
to the first occurrence of the current delimiter in the (already trimmed)
remainder — including the terminator exactly when the delimiter is the
default `;`, excluding it for a custom delimiter — so the statement carries
no leading whitespace, but whitespace immediately before a custom
delimiter occurrence is retained (no trailing trim). -/
theorem c2_statement_extraction (delim sql : List Char) (di : Nat)
    (stmt d2 s2 : List Char)
    (htrim : goTrim sql = sql)
    (hdi : idxOf? delim sql = some di)
    (hstep : stepFn delim sql = .next (some stmt) d2 s2) :
    stmt = (if delim = [';'] then sql.take (di + 1) else sql.take di) ∧
    stmt.dropWhile goIsSpace = stmt := by
  rcases stepFn_cases delim sql with ⟨hd, -, -⟩ | ⟨di', hdi', heq⟩ | ⟨heq, -⟩
  · rw [hd] at hdi
    exact absurd hdi (by simp)
  · rw [heq] at hstep
    obtain ⟨he, -, -, -⟩ := delimStep_next hstep
    have hdd : di' = di := by
      rw [hdi] at hdi'
      exact (Option.some.inj hdi').symm
    subst hdd
    have hstmt : stmt = (if delim = [';'] then sql.take (di' + 1) else sql.take di') :=
      Option.some.inj he
    refine ⟨hstmt, ?_⟩
    have hself := goTrim_eq_self_dropWhile htrim
    rw [hstmt]
    by_cases hdl : delim = [';']
    · rw [if_pos hdl]
      exact dropWhile_take_eq_self _ _ _ hself
    · rw [if_neg hdl]
      exact dropWhile_take_eq_self _ _ _ hself
  · rw [heq] at hstep
    obtain ⟨nl, -, -, he, -, -⟩ := dirStep_next hstep
    exact absurd he (by simp)

/-- Witness for `c2_statement_extraction` at the remainder `A;B;` under
the default delimiter: the emitted statement is `A;`, semicolon retained,
with no leading whitespace. -/
theorem c2_statement_extraction_witness :
    "A;".data =
      (if ([';'] : List Char) = [';'] then "A;B;".data.take (1 + 1)
        else "A;B;".data.take 1) ∧
    "A;".data.dropWhile goIsSpace = "A;".data :=
  c2_statement_extraction [';'] "A;B;".data 1 "A;".data [';'] "B;".data (by decide)
    (by decide) (by decide)

/-- Claim C4 (counterexample): with the custom delimiter `$$` and the
remainder `A$$B;`, the delimiter occurrence is at index 1, yet the next
remainder is `$B;` — the scan advanced only one character past the start
of the occurrence, so the second `$` of the matched delimiter remains in
the text processed by the next iteration. -/
theorem c4_counterexample :
    stepFn "$$".data "A$$B;".data =
      .next (some "A".data) "$$".data "$B;".data ∧
    '$' ∈ "$B;".data := by decide

/-- Claim C4 (amended): in the delimiter branch the scan advances by
exactly one character past the start of the delimiter occurrence (the full
delimiter length only for a single-character delimiter such as the default
`;`), and the remainder is trimmed; for a multi-character delimiter the
remaining delimiter characters stay at the head of the untrimmed advanced
text. -/
theorem c4_advance_by_one (delim sql : List Char) (di : Nat)
    (hdi : idxOf? delim sql = some di)
    (hbr : idxOf? directiveToken sql = none ∨
      ∃ ci, idxOf? directiveToken sql = some ci ∧ di < ci)
    (hlt : di < sql.length) :
    stepFn delim sql =
      .next (some (if delim = [';'] then sql.take (di + 1) else sql.take di)) delim
        (goTrim (sql.drop (di + 1))) ∧
    (1 < delim.length → (sql.drop (di + 1)).take (delim.length - 1) = delim.drop 1) := by
  constructor
  · have hstep : stepFn delim sql = delimStep delim sql di := by
      unfold stepFn
      rcases hbr with hnone | ⟨ci, hci, hlt2⟩
      · rw [hdi, hnone]
      · rw [hdi, hci]
        show (if di < ci then delimStep delim sql di else dirStep delim sql) =
          delimStep delim sql di
        rw [if_pos hlt2]
    rw [hstep]
    unfold delimStep
    show (if sql.length ≤ di then _ else _) = _
    rw [if_neg (by omega)]
  · intro hlen
    obtain ⟨r, hr⟩ := exists_append_of_isPrefixOf (idxOf?_isPrefixOf _ _ _ hdi)
    have h1 : sql.drop (di + 1) = delim.drop 1 ++ r := by
      have h2 : sql.drop (di + 1) = (sql.drop di).drop 1 := by
        rw [List.drop_drop]
      rw [h2, hr, List.drop_append_of_le_length (by omega)]
    rw [h1]
    exact List.take_left' (by rw [List.length_drop])

/-- Witness for `c4_advance_by_one` with delimiter `$$` on `A$$B;`: the
statement `A` is emitted, the scan advances one character (to `$B;`), and
the leftover delimiter character `$` heads the advanced text. -/
theorem c4_advance_by_one_witness :
    stepFn "$$".data "A$$B;".data =
      .next (some (if "$$".data = [';'] then "A$$B;".data.take (1 + 1)
        else "A$$B;".data.take 1)) "$$".data (goTrim ("A$$B;".data.drop (1 + 1))) ∧
    (1 < "$$".data.length →
      ("A$$B;".data.drop (1 + 1)).take ("$$".data.length - 1) = "$$".data.drop 1) :=
  c4_advance_by_one "$$".data "A$$B;".data 1 (by decide) (Or.inl (by decide)) (by decide)

/-- Claim C5 (counterexample): on the remainder `abc\ndelimiter $$\nX;`
(directive token at offset 4) under the default delimiter, the directive
branch uses the first line-break of the remainder — which lies before the
directive token — and sets the current delimiter to `abc`, not to the text
`$$` between the token and the line-break after it. -/
theorem c5_counterexample :
    stepFn [';'] "abc\ndelimiter $$\nX;".data =
      .next none "abc".data "delimiter $$\nX;".data ∧
    "abc".data ≠ "$$".data := by decide

/-- Claim C5 (amended): in the directive branch the end of line used is the
first line-break anywhere in the remainder (which may precede the directive
token); the new delimiter is the remainder's prefix up to and including
that line-break, with the first `delimiter ` occurrence removed when
present in that prefix, all line-breaks removed, and the result trimmed;
when the remainder has no line-break at all, the rest of the script is
discarded and splitting stops without error. -/
theorem c5_directive_line (delim sql : List Char) (ci : Nat)
    (hci : idxOf? directiveToken sql = some ci)
    (hbr : idxOf? delim sql = none ∨ ∃ di, idxOf? delim sql = some di ∧ ci ≤ di) :
    (idxOf? ['\n'] sql = none → stepFn delim sql = .halt none) ∧
    (∀ nl, idxOf? ['\n'] sql = some nl → nl < sql.length →
      stepFn delim sql =
        .next none
          (goTrim ((replaceFirst directiveToken (sql.take (nl + 1))).filter
            (fun c => c ≠ '\n')))
          (goTrim (sql.drop (nl + 1)))) := by
  have hstep : stepFn delim sql = dirStep delim sql := by
    unfold stepFn
    rcases hbr with hnone | ⟨di, hdi, hle⟩
    · rw [hnone, hci]
    · rw [hdi, hci]
      show (if di < ci then delimStep delim sql di else dirStep delim sql) =
        dirStep delim sql
      rw [if_neg (by omega)]
  exact ⟨fun hnl => hstep.trans (dirStep_eq_of_none hnl),
    fun nl hnl hlt => hstep.trans (dirStep_eq_of_some hnl hlt)⟩

/-- Witness for `c5_directive_line`: `delimiter $$` with no trailing
line-break stops splitting with nothing emitted, and on
`delimiter $$\nX$$` the directive line sets the delimiter to `$$` and
continues with remainder `X$$`. -/
theorem c5_directive_line_witness :
    stepFn [';'] "delimiter $$".data = .halt none ∧
    stepFn [';'] "delimiter $$\nX$$".data = .next none "$$".data "X$$".data :=
  ⟨(c5_directive_line [';'] "delimiter $$".data 0 (by decide) (Or.inl (by decide))).1
      (by decide),
    ((c5_directive_line [';'] "delimiter $$\nX$$".data 0 (by decide)
        (Or.inl (by decide))).2 12 (by decide) (by decide)).trans (by decide)⟩

theorem splitLoop_err_iff : ∀ (n : Nat) (delim sql : List Char), sql.length ≤ n →
    ((splitLoop delim sql).2 = true ↔ ReachesBad delim sql) := by
  intro n
  induction n with
  | zero =>
    intro delim sql hlen
    have hsql : sql = [] := List.eq_nil_of_length_eq_zero (Nat.le_zero.mp hlen)
    subst hsql
    rw [splitLoop_eq]
    simp only [if_pos rfl]
    constructor
    · intro h
      exact absurd h (by simp)
    · intro h
      cases h with
      | found hne _ _ => exact absurd rfl hne
      | step hne _ _ => exact absurd rfl hne
  | succ n ih =>
    intro delim sql hlen
    by_cases hsql : sql = []
    · subst hsql
      rw [splitLoop_eq]
      simp only [if_pos rfl]
      constructor
      · intro h
        exact absurd h (by simp)
      · intro h
        cases h with
        | found hne _ _ => exact absurd rfl hne
        | step hne _ _ => exact absurd rfl hne
    · rw [splitLoop_eq, if_neg hsql]
      cases hstep : stepFn delim sql with
      | errored =>
        constructor
        · intro _
          obtain ⟨hd, hc⟩ := stepFn_errored_iff.mp hstep
          exact ReachesBad.found hsql hd hc
        · intro _
          rfl
      | halt e =>
        constructor
        · intro h
          exact absurd h (by simp)
        · intro h
          cases h with
          | found hne hd hc =>
            have herr : stepFn delim sql = .errored := stepFn_errored_iff.mpr ⟨hd, hc⟩
            rw [hstep] at herr
            exact absurd herr (by simp)
          | step hne hstep2 htail =>
            rw [hstep] at hstep2
            exact absurd hstep2 (by simp)
      | next e d2 s2 =>
        have hs2len := stepFn_next_length hstep
        have hrec := ih d2 s2 (by omega)
        constructor
        · intro h
          exact ReachesBad.step hsql hstep (hrec.mp h)
        · intro h
          cases h with
          | found hne hd hc =>
            have herr : stepFn delim sql = .errored := stepFn_errored_iff.mpr ⟨hd, hc⟩
            rw [hstep] at herr
            exact absurd herr (by simp)
          | step hne hstep2 htail =>
            rw [hstep] at hstep2
            cases hstep2
            exact hrec.mpr htail

/-- Claim C6: the splitter fails with the unterminated-statement error
exactly when some iteration reaches a non-empty trimmed remainder
containing neither an occurrence of the current delimiter nor the
directive token `delimiter `; and a script that is empty after trimming
yields zero statements and no error. -/
theorem c6_malformed_iff :
    (∀ delim sql : List Char, (splitLoop delim sql).2 = true ↔ ReachesBad delim sql) ∧
    (∀ s : List Char, goTrim s = [] → splitScript s = ([], false)) := by
  constructor
  · intro delim sql
    exact splitLoop_err_iff sql.length delim sql (le_refl _)
  · intro s hs
    unfold splitScript
    rw [hs]
    rfl

/-- Witness for `c6_malformed_iff`: `SELECT 1` (no terminator, no
directive) makes the splitter fail, and a whitespace-only script yields
zero statements and no error. -/
theorem c6_malformed_iff_witness :
    (splitLoop [';'] "SELECT 1".data).2 = true ∧ splitScript "  ".data = ([], false) :=
  ⟨(c6_malformed_iff.1 [';'] "SELECT 1".data).mpr
      (ReachesBad.found (by decide) (by decide) (by decide)),
    c6_malformed_iff.2 "  ".data (by decide)⟩


/-! ## Runner lemmas -/

theorem runFiles_cons (env : MigrationEnv) (st : RunState) (n : List Char)
    (rest : List (List Char)) :
    runFiles env st (n :: rest) =
      if (runFile env st n).2 then ((runFile env st n).1, true)
      else runFiles env (runFile env st n).1 rest := by
  rfl

theorem runFile_skip (env : MigrationEnv) (st : RunState) (name : List Char)
    (h : name ∈ st.ledger) : runFile env st name = (st, false) := by
  unfold runFile
  rw [if_pos h]

theorem runFile_eq_read_err (env : MigrationEnv) (st : RunState) (name : List Char)
    (hm : name ∉ st.ledger) (hr : env.readFile name = none) :
    runFile env st name = ({ st with reads := st.reads ++ [name] }, true) := by
  unfold runFile
  rw [if_neg hm, hr]

theorem runFile_eq_some (env : MigrationEnv) (st : RunState) (name contents : List Char)
    (hm : name ∉ st.ledger) (hr : env.readFile name = some contents) :
    runFile env st name =
      if (execStatements env.execOk (splitScript contents).1).2 ||
          (splitScript contents).2 then
        ({ st with
            execed := st.execed ++ (execStatements env.execOk (splitScript contents).1).1,
            reads := st.reads ++ [name] }, true)
      else
        ({ st with
            ledger := st.ledger ++ [name],
            execed := st.execed ++ (execStatements env.execOk (splitScript contents).1).1,
            reads := st.reads ++ [name] }, false) := by
  unfold runFile
  rw [if_neg hm, hr]

theorem runFile_err_ledger (env : MigrationEnv) (st : RunState) (name : List Char)
    (h : (runFile env st name).2 = true) :
    (runFile env st name).1.ledger = st.ledger := by
  by_cases hm : name ∈ st.ledger
  · rw [runFile_skip env st name hm]
  · cases hr : env.readFile name with
    | none => rw [runFile_eq_read_err env st name hm hr]
    | some contents =>
      rw [runFile_eq_some env st name contents hm hr] at h ⊢
      by_cases hb : ((execStatements env.execOk (splitScript contents).1).2 ||
          (splitScript contents).2) = true
      · rw [if_pos hb]
      · rw [if_neg hb] at h
        replace h : (false : Bool) = true := h
        exact absurd h (by simp)

theorem runFile_ok_mem (env : MigrationEnv) (st : RunState) (name : List Char)
    (h : (runFile env st name).2 = false) :
    name ∈ (runFile env st name).1.ledger := by
  by_cases hm : name ∈ st.ledger
  · rw [runFile_skip env st name hm]
    exact hm
  · cases hr : env.readFile name with
    | none =>
      rw [runFile_eq_read_err env st name hm hr] at h
      replace h : (true : Bool) = false := h
      exact absurd h (by simp)
    | some contents =>
      rw [runFile_eq_some env st name contents hm hr] at h ⊢
      by_cases hb : ((execStatements env.execOk (splitScript contents).1).2 ||
          (splitScript contents).2) = true
      · rw [if_pos hb] at h
        replace h : (true : Bool) = false := h
        exact absurd h (by simp)
      · rw [if_neg hb]
        show name ∈ st.ledger ++ [name]
        simp

theorem runFile_ok_new (env : MigrationEnv) (st : RunState) (name : List Char)
    (hm : name ∉ st.ledger) (h : (runFile env st name).2 = false) :
    ∃ contents, env.readFile name = some contents ∧
      (splitScript contents).2 = false ∧
      (execStatements env.execOk (splitScript contents).1).2 = false ∧
      (runFile env st name).1.ledger = st.ledger ++ [name] := by
  cases hr : env.readFile name with
  | none =>
    rw [runFile_eq_read_err env st name hm hr] at h
    replace h : (true : Bool) = false := h
    exact absurd h (by simp)
  | some contents =>
    rw [runFile_eq_some env st name contents hm hr] at h ⊢
    by_cases hb : ((execStatements env.execOk (splitScript contents).1).2 ||
        (splitScript contents).2) = true
    · rw [if_pos hb] at h
      replace h : (true : Bool) = false := h
      exact absurd h (by simp)
    · rw [if_neg hb]
      simp only [Bool.or_eq_true, not_or, Bool.not_eq_true] at hb
      exact ⟨contents, rfl, hb.2, hb.1, rfl⟩

theorem runFile_ledger_mono (env : MigrationEnv) (st : RunState) (name x : List Char)
    (hx : x ∈ st.ledger) : x ∈ (runFile env st name).1.ledger := by
  by_cases hm : name ∈ st.ledger
  · rw [runFile_skip env st name hm]
    exact hx
  · cases hr : env.readFile name with
    | none =>
      rw [runFile_eq_read_err env st name hm hr]
      exact hx
    | some contents =>
      rw [runFile_eq_some env st name contents hm hr]
      by_cases hb : ((execStatements env.execOk (splitScript contents).1).2 ||
          (splitScript contents).2) = true
      · rw [if_pos hb]
        exact hx
      · rw [if_neg hb]
        exact List.mem_append_left _ hx

theorem runFile_reads_cases (env : MigrationEnv) (st : RunState) (name : List Char) :
    (runFile env st name).1.reads = st.reads ∨
    (runFile env st name).1.reads = st.reads ++ [name] := by
  by_cases hm : name ∈ st.ledger
  · rw [runFile_skip env st name hm]
    exact Or.inl rfl
  · cases hr : env.readFile name with
    | none =>
      rw [runFile_eq_read_err env st name hm hr]
      exact Or.inr rfl
    | some contents =>
      rw [runFile_eq_some env st name contents hm hr]
      by_cases hb : ((execStatements env.execOk (splitScript contents).1).2 ||
          (splitScript contents).2) = true
      · rw [if_pos hb]
        exact Or.inr rfl
      · rw [if_neg hb]
        exact Or.inr rfl

theorem runFiles_ledger_mono (env : MigrationEnv) :
    ∀ (names : List (List Char)) (st : RunState) (x : List Char),
      x ∈ st.ledger → x ∈ (runFiles env st names).1.ledger := by
  intro names
  induction names with
  | nil => intro st x hx; exact hx
  | cons m rest ih =>
    intro st x hx
    rw [runFiles_cons]
    by_cases h2 : (runFile env st m).2 = true
    · rw [if_pos h2]
      exact runFile_ledger_mono env st m x hx
    · rw [if_neg h2]
      exact ih _ x (runFile_ledger_mono env st m x hx)

theorem runFiles_ok_mem (env : MigrationEnv) :
    ∀ (names : List (List Char)) (st : RunState),
      (runFiles env st names).2 = false →
      ∀ n ∈ names, n ∈ (runFiles env st names).1.ledger := by
  intro names
  induction names with
  | nil => intro st h n hn; exact absurd hn (List.not_mem_nil n)
  | cons m rest ih =>
    intro st h n hn
    rw [runFiles_cons] at h ⊢
    by_cases h2 : (runFile env st m).2 = true
    · rw [if_pos h2] at h
      replace h : (true : Bool) = false := h
      exact absurd h (by simp)
    · rw [if_neg h2] at h ⊢
      have h2f : (runFile env st m).2 = false := by
        cases hbb : (runFile env st m).2
        · rfl
        · exact absurd hbb h2
      rcases List.mem_cons.mp hn with rfl | hrest
      · exact runFiles_ledger_mono env rest _ n (runFile_ok_mem env st n h2f)
      · exact ih _ h n hrest

theorem runFiles_all_skip (env : MigrationEnv) :
    ∀ (names : List (List Char)) (st : RunState),
      (∀ n ∈ names, n ∈ st.ledger) → runFiles env st names = (st, false) := by
  intro names
  induction names with
  | nil => intro st h; rfl
  | cons m rest ih =>
    intro st h
    rw [runFiles_cons, runFile_skip env st m (h m (List.mem_cons_self m rest))]
    show (if (false : Bool) = true then ((st, false).1, true)
      else runFiles env (st, false).1 rest) = (st, false)
    rw [if_neg (by simp)]
    exact ih st (fun n hn => h n (List.mem_cons_of_mem m hn))

theorem runFiles_reads_sub (env : MigrationEnv) :
    ∀ (names : List (List Char)) (st : RunState) (n : List Char),
      n ∈ (runFiles env st names).1.reads → n ∈ st.reads ∨ n ∈ names := by
  intro names
  induction names with
  | nil => intro st n h; exact Or.inl h
  | cons m rest ih =>
    intro st n h
    rw [runFiles_cons] at h
    have fromFile : n ∈ (runFile env st m).1.reads → n ∈ st.reads ∨ n ∈ m :: rest := by
      intro hf
      rcases runFile_reads_cases env st m with hc | hc
      · rw [hc] at hf
        exact Or.inl hf
      · rw [hc] at hf
        rcases List.mem_append.mp hf with hf | hf
        · exact Or.inl hf
        · simp only [List.mem_singleton] at hf
          exact Or.inr (by simp [hf])
    by_cases h2 : (runFile env st m).2 = true
    · rw [if_pos h2] at h
      replace h : n ∈ (runFile env st m).1.reads := h
      exact fromFile h
    · rw [if_neg h2] at h
      rcases ih _ n h with h | h
      · exact fromFile h
      · exact Or.inr (List.mem_cons_of_mem m h)

/-- Claim C7: a file name appears in the migration list exactly when the
directory listing has a non-directory entry of that name whose extension
lowercases to `.sql`; the list is sorted ascending; the list does not
depend on the enumeration order of the listing; and the runner reads only
files from that list. -/
theorem c7_selection :
    (∀ (entries : List DirEntry) (name : List Char),
      name ∈ selectMigrations entries ↔
        ∃ e ∈ entries, e.isDir = false ∧
          goToLower (pathExt e.name) = ".sql".data ∧ e.name = name) ∧
    (∀ entries : List DirEntry, List.Sorted (· ≤ ·) (selectMigrations entries)) ∧
    (∀ entries entries' : List DirEntry, entries.Perm entries' →
      selectMigrations entries = selectMigrations entries') ∧
    (∀ (env : MigrationEnv) (initialLedger : List (List Char)),
      ∀ n ∈ (runMigrationsModel env initialLedger).1.reads,
        n ∈ selectMigrations env.entries) := by
  refine ⟨?_, ?_, ?_, ?_⟩
  · intro entries name
    unfold selectMigrations
    rw [List.mem_insertionSort]
    simp only [List.mem_map, List.mem_filter, keepEntry, Bool.and_eq_true,
      Bool.not_eq_true', beq_iff_eq]
    constructor
    · rintro ⟨e, ⟨he, hdir, hext⟩, hname⟩
      exact ⟨e, he, hdir, hext, hname⟩
    · rintro ⟨e, he, hdir, hext, hname⟩
      exact ⟨e, ⟨he, hdir, hext⟩, hname⟩
  · intro entries
    exact List.sorted_insertionSort _ _
  · intro entries entries' hperm
    unfold selectMigrations
    refine List.eq_of_perm_of_sorted ?_ (List.sorted_insertionSort _ _)
      (List.sorted_insertionSort _ _)
    exact (List.perm_insertionSort _ _).trans
      (((hperm.filter keepEntry).map DirEntry.name).trans
        (List.perm_insertionSort _ _).symm)
  · intro env initialLedger n hn
    rcases runFiles_reads_sub env (selectMigrations env.entries)
        ⟨initialLedger, [], []⟩ n hn with h | h
    · exact absurd h (List.not_mem_nil n)
    · exact h

/-- Witness for `c7_selection` at the spec's example listing: given
`02_x.sql` and `01_y.sql` (in either enumeration order), the migration
list is the same, starts with `01_y.sql`, and a `readme.txt` entry is
never selected. -/
theorem c7_selection_witness :
    selectMigrations [⟨"02_x.sql".data, false⟩, ⟨"01_y.sql".data, false⟩] =
      selectMigrations [⟨"01_y.sql".data, false⟩, ⟨"02_x.sql".data, false⟩] ∧
    "01_y.sql".data ∈ selectMigrations [⟨"02_x.sql".data, false⟩, ⟨"01_y.sql".data, false⟩] ∧
    "readme.txt".data ∉
      selectMigrations [⟨"02_x.sql".data, false⟩, ⟨"readme.txt".data, false⟩] :=
  ⟨c7_selection.2.2.1 _ _ (List.Perm.swap _ _ _),
    (c7_selection.1 _ _).mpr ⟨⟨"01_y.sql".data, false⟩, by decide, rfl, by decide, rfl⟩,
    fun h => by
      rcases (c7_selection.1 _ _).mp h with ⟨e, he, -, hext, hname⟩
      rcases List.mem_cons.mp he with rfl | he2
      · exact absurd hname (by decide)
      · rcases List.mem_cons.mp he2 with rfl | he3
        · exact absurd hext (by decide)
        · exact absurd he3 (List.not_mem_nil e)⟩

/-- Claim C8: a file already in the ledger is skipped with no state
change; an aborting file run never writes its ledger record; a fresh file
gets its record appended exactly when its read, split and every statement
execution succeeded; and a second run over a fully and successfully
applied source executes zero statements, reads nothing, and leaves the
ledger unchanged. -/
theorem c8_ledger_discipline (env : MigrationEnv) :
    (∀ (st : RunState) (name : List Char), name ∈ st.ledger →
      runFile env st name = (st, false)) ∧
    (∀ (st : RunState) (name : List Char), (runFile env st name).2 = true →
      (runFile env st name).1.ledger = st.ledger) ∧
    (∀ (st : RunState) (name : List Char), name ∉ st.ledger →
      (runFile env st name).2 = false →
      ∃ contents, env.readFile name = some contents ∧
        (splitScript contents).2 = false ∧
        (execStatements env.execOk (splitScript contents).1).2 = false ∧
        (runFile env st name).1.ledger = st.ledger ++ [name]) ∧
    (∀ (initialLedger : List (List Char)) (st1 : RunState),
      runMigrationsModel env initialLedger = (st1, false) →
      runMigrationsModel env st1.ledger =
        ({ ledger := st1.ledger, execed := [], reads := [] }, false)) := by
  refine ⟨runFile_skip env, runFile_err_ledger env, runFile_ok_new env, ?_⟩
  intro initialLedger st1 h
  have hmem : ∀ n ∈ selectMigrations env.entries, n ∈ st1.ledger := by
    intro n hn
    have hled := runFiles_ok_mem env (selectMigrations env.entries)
      ⟨initialLedger, [], []⟩ (by rw [show runFiles env ⟨initialLedger, [], []⟩
        (selectMigrations env.entries) = (st1, false) from h]) n hn
    rw [show runFiles env ⟨initialLedger, [], []⟩
      (selectMigrations env.entries) = (st1, false) from h] at hled
    exact hled
  exact runFiles_all_skip env (selectMigrations env.entries)
    ⟨st1.ledger, [], []⟩ hmem

/-- Witness for `c8_ledger_discipline` on a one-file source whose single
statement succeeds: the already-recorded file is skipped unchanged, and
re-running over the resulting ledger changes nothing. -/
theorem c8_ledger_discipline_witness :
    runFile ⟨[⟨"01.sql".data, false⟩],
        fun n => if n = "01.sql".data then some "SELECT 1;".data else none,
        fun _ => true⟩
      ⟨["01.sql".data], [], []⟩ "01.sql".data = (⟨["01.sql".data], [], []⟩, false) ∧
    runMigrationsModel ⟨[⟨"01.sql".data, false⟩],
        fun n => if n = "01.sql".data then some "SELECT 1;".data else none,
        fun _ => true⟩
      ["01.sql".data] = (⟨["01.sql".data], [], []⟩, false) :=
  ⟨(c8_ledger_discipline _).1 ⟨["01.sql".data], [], []⟩ "01.sql".data (by simp),
    (c8_ledger_discipline _).2.2.2 []
      ⟨["01.sql".data], ["SELECT 1;".data], ["01.sql".data]⟩ (by decide)⟩
